import Mathlib

/-!
Verification of the NBA props analyzer pipeline.

Shallow embedding of `src/pipeline.py` and `src/app.py`: American-odds
conversion, probability estimation, EV computation, batch enrichment, the
`/analyze` filter/rank/explain flow, and the explanation-gateway fallback
contract.  Numeric values are modelled as exact rationals (`ℚ`); a pandas
DataFrame of prop rows is modelled as a `List` of records, with the
column-wise `apply` operations modelled row-wise (the columns carry no
cross-row dependency).
-/

namespace NbaProps

/-- One row of the props CSV (`player`, `stat_line`, `american_odds`),
as loaded by `load_props` in `pipeline.py`. -/
structure PropRecord where
  player : String
  stat_line : String
  american_odds : ℚ
deriving Repr, DecidableEq

/-- A prop row after `enrich_props` added the three derived columns.
`llm_explanation` models the optional dict key written by the explain
step of the `/analyze` handler (`none` = key absent). -/
structure EnrichedProp where
  player : String
  stat_line : String
  american_odds : ℚ
  implied_prob : ℚ
  true_prob : ℚ
  ev_per_dollar : ℚ
  llm_explanation : Option String
deriving Repr, DecidableEq

/-- `american_to_prob` from `pipeline.py`: convert American odds to implied
win probability.  Positive odds take the `100 / (odds + 100)` branch, all
other odds (including `0`) take the `-odds / (-odds + 100)` branch. -/
def american_to_prob (odds : ℚ) : ℚ :=
  if odds > 0 then 100 / (odds + 100) else (-odds) / (-odds + 100)

/-- `compute_ev_per_dollar` from `pipeline.py`: expected value per $1 stake
given an estimated true win probability and the American odds. -/
def compute_ev_per_dollar (true_prob : ℚ) (odds : ℚ) : ℚ :=
  let win_return : ℚ := if odds > 0 then odds / 100 else 100 / (-odds)
  let lose_return : ℚ := -1
  true_prob * win_return + (1 - true_prob) * lose_return

/-- Division guarded against a zero divisor, used to track exactly where the
Python source would raise `ZeroDivisionError`. -/
def checkedDiv (a b : ℚ) : Option ℚ :=
  if b = 0 then none else some (a / b)

/-- `american_to_prob` with every division of the source guarded: the
positive branch divides by `odds + 100`, the other branch by `-odds + 100`. -/
def american_to_prob_checked (odds : ℚ) : Option ℚ :=
  if odds > 0 then checkedDiv 100 (odds + 100) else checkedDiv (-odds) (-odds + 100)

/-- `compute_ev_per_dollar` with every division of the source guarded: the
positive branch divides by `100`, the other branch by `-odds`. -/
def compute_ev_per_dollar_checked (true_prob : ℚ) (odds : ℚ) : Option ℚ :=
  (if odds > 0 then checkedDiv odds 100 else checkedDiv 100 (-odds)).map
    (fun win_return => true_prob * win_return + (1 - true_prob) * (-1))

/-- The per-row action of `enrich_props`: `implied_prob` from
`american_to_prob`, `true_prob = implied_prob * 0.98`, and `ev_per_dollar`
from `compute_ev_per_dollar` on the row's own `true_prob` and odds. -/
def enrichRow (r : PropRecord) : EnrichedProp :=
  let implied := american_to_prob r.american_odds
  let tp := implied * (98 / 100)
  { player := r.player
    stat_line := r.stat_line
    american_odds := r.american_odds
    implied_prob := implied
    true_prob := tp
    ev_per_dollar := compute_ev_per_dollar tp r.american_odds
    llm_explanation := none }

/-- `enrich_props` from `pipeline.py`: columnwise `apply` of
`american_to_prob`, the `* 0.98` discount, and the rowwise `apply` of
`compute_ev_per_dollar`, modelled as one map over the rows. -/
def enrich_props (df : List PropRecord) : List EnrichedProp :=
  df.map enrichRow

/-- The EV filter of the `/analyze` handler:
`enriched[enriched["ev_per_dollar"] >= min_ev]`, a boolean-mask row filter
that keeps surviving rows in their original order. -/
def filterByEV (enriched : List EnrichedProp) (min_ev : ℚ) : List EnrichedProp :=
  enriched.filter (fun e => decide (min_ev ≤ e.ev_per_dollar))

/-- A sample input row used to instantiate hypotheses at concrete values. -/
def samplePr : PropRecord :=
  { player := "LeBron James", stat_line := "Over 24.5 points", american_odds := 150 }

/-- Shared algebra: the composed pipeline EV at nonzero odds is the constant
`-1/50`, independent of the odds. -/
theorem ev_pipeline_eq (o : ℚ) (ho : o ≠ 0) :
    compute_ev_per_dollar (american_to_prob o * (98 / 100)) o = -(1 / 50) := by
  rcases lt_or_gt_of_ne ho with hneg | hpos
  · have hden : -o + 100 ≠ 0 := (by linarith : (0 : ℚ) < -o + 100).ne'
    simp only [compute_ev_per_dollar, american_to_prob, if_neg (not_lt.mpr hneg.le)]
    field_simp
    ring
  · have hden : o + 100 ≠ 0 := (by linarith : (0 : ℚ) < o + 100).ne'
    simp only [compute_ev_per_dollar, american_to_prob, if_pos hpos]
    field_simp
    ring

/-- C10: at odds `0`, `american_to_prob` neither rejects the input nor
returns `1`: the zero case falls into the non-positive branch, whose value
`-0 / (-0 + 100)` is `0`. -/
theorem american_to_prob_at_zero :
    american_to_prob 0 = (-(0 : ℚ)) / (-(0 : ℚ) + 100) ∧
    american_to_prob 0 = 0 ∧
    american_to_prob 0 ≠ 1 := by
  refine ⟨?_, ?_, ?_⟩ <;> simp [american_to_prob]

/-- C2: on positive odds `american_to_prob` returns `100 / (o + 100)`, on
negative odds it returns `-o / (-o + 100)`, and on every nonzero odds the
result lies strictly between `0` and `1`. -/
theorem american_to_prob_spec (o : ℚ) (ho : o ≠ 0) :
    (0 < o → american_to_prob o = 100 / (o + 100)) ∧
    (o < 0 → american_to_prob o = (-o) / (-o + 100)) ∧
    0 < american_to_prob o ∧ american_to_prob o < 1 := by
  refine ⟨fun hpos => by simp [american_to_prob, if_pos hpos],
    fun hneg => by simp [american_to_prob, if_neg (not_lt.mpr hneg.le)], ?_, ?_⟩
  · rcases lt_or_gt_of_ne ho with hneg | hpos
    · have h1 : (0 : ℚ) < -o := by linarith
      have h2 : (0 : ℚ) < -o + 100 := by linarith
      simp only [american_to_prob, if_neg (not_lt.mpr hneg.le)]
      positivity
    · have h2 : (0 : ℚ) < o + 100 := by linarith
      simp only [american_to_prob, if_pos hpos]
      positivity
  · rcases lt_or_gt_of_ne ho with hneg | hpos
    · have h2 : (0 : ℚ) < -o + 100 := by linarith
      simp only [american_to_prob, if_neg (not_lt.mpr hneg.le)]
      rw [div_lt_one h2]
      linarith
    · have h2 : (0 : ℚ) < o + 100 := by linarith
      simp only [american_to_prob, if_pos hpos]
      rw [div_lt_one h2]
      linarith

/-- Witness for C2 at the concrete odds `150` and `-110`. -/
theorem american_to_prob_spec_witness :
    american_to_prob 150 = 100 / (150 + 100) ∧
    0 < american_to_prob 150 ∧ american_to_prob 150 < 1 ∧
    american_to_prob (-110) = (-(-110 : ℚ)) / (-(-110 : ℚ) + 100) ∧
    0 < american_to_prob (-110) ∧ american_to_prob (-110) < 1 := by
  have hp := american_to_prob_spec 150 (by norm_num)
  have hn := american_to_prob_spec (-110) (by norm_num)
  exact ⟨hp.1 (by norm_num), hp.2.2.1, hp.2.2.2,
    hn.2.1 (by norm_num), hn.2.2.1, hn.2.2.2⟩

/-- C3: for every true probability and nonzero odds, `compute_ev_per_dollar`
equals `p * win_return + (1 - p) * (-1)` with `win_return = o/100` for
positive odds and `100/(-o)` for negative odds; the result is unclamped and
can be negative, zero, or positive. -/
theorem compute_ev_per_dollar_spec (p o : ℚ) (ho : o ≠ 0) :
    (0 < o → compute_ev_per_dollar p o = p * (o / 100) + (1 - p) * (-1)) ∧
    (o < 0 → compute_ev_per_dollar p o = p * (100 / (-o)) + (1 - p) * (-1)) ∧
    compute_ev_per_dollar 0 100 < 0 ∧
    compute_ev_per_dollar (1 / 2) 100 = 0 ∧
    0 < compute_ev_per_dollar 1 100 := by
  refine ⟨fun hpos => by simp [compute_ev_per_dollar, if_pos hpos],
    fun hneg => by simp [compute_ev_per_dollar, if_neg (not_lt.mpr hneg.le)],
    by norm_num [compute_ev_per_dollar],
    by norm_num [compute_ev_per_dollar],
    by norm_num [compute_ev_per_dollar]⟩

/-- Witness for C3 at the concrete inputs `p = 2/5, o = 150` and
`p = 1/2, o = -110`. -/
theorem compute_ev_per_dollar_spec_witness :
    compute_ev_per_dollar (2 / 5) 150 = (2 / 5) * ((150 : ℚ) / 100) + (1 - 2 / 5) * (-1) ∧
    compute_ev_per_dollar (1 / 2) (-110) =
      (1 / 2) * ((100 : ℚ) / (-(-110 : ℚ))) + (1 - 1 / 2) * (-1) ∧
    compute_ev_per_dollar 0 100 < 0 ∧
    compute_ev_per_dollar (1 / 2) 100 = 0 ∧
    0 < compute_ev_per_dollar 1 100 := by
  have hp := compute_ev_per_dollar_spec (2 / 5) 150 (by norm_num)
  have hn := compute_ev_per_dollar_spec (1 / 2) (-110) (by norm_num)
  exact ⟨hp.1 (by norm_num), hn.2.1 (by norm_num), hp.2.2.1, hp.2.2.2.1, hp.2.2.2.2⟩

/-- C9: with nonzero odds every division in `american_to_prob` and
`compute_ev_per_dollar` has a nonzero divisor (the guarded variants return
`some` of the unguarded value), while odds `0` makes the `100 / -odds`
division of `compute_ev_per_dollar` a division by zero. -/
theorem division_safety (p o : ℚ) (ho : o ≠ 0) :
    american_to_prob_checked o = some (american_to_prob o) ∧
    compute_ev_per_dollar_checked p o = some (compute_ev_per_dollar p o) ∧
    compute_ev_per_dollar_checked p 0 = none := by
  refine ⟨?_, ?_, by norm_num [compute_ev_per_dollar_checked, checkedDiv]⟩
  · rcases lt_or_gt_of_ne ho with hneg | hpos
    · have hden : -o + 100 ≠ 0 := (by linarith : (0 : ℚ) < -o + 100).ne'
      simp [american_to_prob_checked, american_to_prob, checkedDiv,
        if_neg (not_lt.mpr hneg.le), hden]
    · have hden : o + 100 ≠ 0 := (by linarith : (0 : ℚ) < o + 100).ne'
      simp [american_to_prob_checked, american_to_prob, checkedDiv, if_pos hpos, hden]
  · rcases lt_or_gt_of_ne ho with hneg | hpos
    · have hno : -o ≠ 0 := neg_ne_zero.mpr ho
      simp [compute_ev_per_dollar_checked, compute_ev_per_dollar, checkedDiv,
        if_neg (not_lt.mpr hneg.le), hno]
    · simp [compute_ev_per_dollar_checked, compute_ev_per_dollar, checkedDiv, if_pos hpos]

/-- Witness for C9 at the concrete inputs `p = 1/2, o = -110`. -/
theorem division_safety_witness :
    american_to_prob_checked (-110) = some (american_to_prob (-110)) ∧
    compute_ev_per_dollar_checked (1 / 2) (-110) =
      some (compute_ev_per_dollar (1 / 2) (-110)) ∧
    compute_ev_per_dollar_checked (1 / 2) 0 = none :=
  division_safety (1 / 2) (-110) (by norm_num)

/-- C4: in exact arithmetic the composed pipeline EV at nonzero odds is
always `-1/50`; hence every record enriched from a batch of nonzero-odds
props carries `ev_per_dollar = -1/50`, and the `/analyze` filter with any
`min_ev > -1/50` (in particular the default `0`) keeps no record. -/
theorem pipeline_ev_constant (o : ℚ) (batch : List PropRecord) (min_ev : ℚ)
    (ho : o ≠ 0) (hb : ∀ r ∈ batch, r.american_odds ≠ 0) (hm : -(1 / 50) < min_ev) :
    compute_ev_per_dollar (98 / 100 * american_to_prob o) o = -(1 / 50) ∧
    (∀ e ∈ enrich_props batch, e.ev_per_dollar = -(1 / 50)) ∧
    filterByEV (enrich_props batch) min_ev = [] := by
  have hev : ∀ e ∈ enrich_props batch, e.ev_per_dollar = -(1 / 50) := by
    intro e he
    rcases List.mem_map.mp he with ⟨r, hr, rfl⟩
    simpa [enrichRow] using ev_pipeline_eq r.american_odds (hb r hr)
  refine ⟨?_, hev, ?_⟩
  · rw [mul_comm]
    exact ev_pipeline_eq o ho
  · refine List.filter_eq_nil_iff.mpr (fun e he => ?_)
    simp only [decide_eq_true_eq]
    rw [hev e he]
    exact not_le.mpr hm

/-- Witness for C4 at odds `150`, the one-row batch `[samplePr]`, and the
default threshold `min_ev = 0`. -/
theorem pipeline_ev_constant_witness :
    compute_ev_per_dollar (98 / 100 * american_to_prob 150) 150 = -(1 / 50) ∧
    (∀ e ∈ enrich_props [samplePr], e.ev_per_dollar = -(1 / 50)) ∧
    filterByEV (enrich_props [samplePr]) 0 = [] :=
  pipeline_ev_constant 150 [samplePr] 0 (by norm_num)
    (by intro r hr; rw [List.mem_singleton.mp hr]; norm_num [samplePr]) (by norm_num)

/-- Outcome of one HTTP call to the vLLM backend as seen by
`get_llm_explanation`: either a well-formed completion carrying the
generated text, or any of the raising cases the `except Exception` arm
catches (connection error, timeout, non-2xx status, malformed JSON). -/
inductive BackendResponse where
  | ok (text : String)
  | failed
deriving Repr, DecidableEq

/-- The fixed fallback returned when `VLLM_BASE_URL` is unset or empty. -/
def notConfiguredMsg : String :=
  "LLM explanation not available (VLLM_BASE_URL is not configured)."

/-- The fixed fallback returned when the backend call raises. -/
def errorMsg : String :=
  "LLM explanation could not be generated due to an error."

/-- `get_llm_explanation` from `app.py`.  `vllm_base_url = none` models an
unset (or falsy empty) `VLLM_BASE_URL`, in which case the function returns
before building the request, so the backend outcome is never consulted.
When configured, a successful call returns the completion text stripped,
and every raising case degrades to the fixed error message. -/
def get_llm_explanation (vllm_base_url : Option String)
    (response : BackendResponse) : String :=
  match vllm_base_url with
  | none => notConfiguredMsg
  | some _ =>
    match response with
    | .ok text => text.trim
    | .failed => errorMsg

/-- The ordering used by `sorted(records, key=lambda r: r["ev_per_dollar"],
reverse=True)` on (original index, record) pairs: descending EV. -/
def evDesc (a b : Nat × EnrichedProp) : Prop :=
  b.2.ev_per_dollar ≤ a.2.ev_per_dollar

instance : DecidableRel evDesc :=
  fun a b => inferInstanceAs (Decidable (b.2.ev_per_dollar ≤ a.2.ev_per_dollar))

instance : IsTotal (Nat × EnrichedProp) evDesc :=
  ⟨fun _ _ => le_total _ _⟩

instance : IsTrans (Nat × EnrichedProp) evDesc :=
  ⟨fun _ _ _ h1 h2 => le_trans h2 h1⟩

/-- Original positions of the records the explain loop writes to:
`records_sorted = sorted(records, key=ev, reverse=True)` (Python's sort is
stable, as is `insertionSort`), `top_k = min(3, len(records_sorted))`, and
the loop walks `records_sorted[:top_k]`. -/
def topKIndices (records : List EnrichedProp) : List Nat :=
  let records_sorted := List.insertionSort evDesc records.enum
  let top_k := min 3 records_sorted.length
  (records_sorted.take top_k).map Prod.fst

/-- `r["llm_explanation"] = get_llm_explanation(r)` on one record dict. -/
def setExplanation (explainFn : EnrichedProp → String) (r : EnrichedProp) : EnrichedProp :=
  { r with llm_explanation := some (explainFn r) }

/-- The record list after the explain loop.  In the source the sorted list
holds references to the very dicts of `records`, so assigning through the
top-k slice mutates `records` at those original positions; modelled
functionally as an update at the indices `topKIndices records`. -/
def explainTopK (explainFn : EnrichedProp → String)
    (records : List EnrichedProp) : List EnrichedProp :=
  records.enum.map
    (fun p => if p.1 ∈ topKIndices records then setExplanation explainFn p.2 else p.2)

/-- HTTP outcome of the `/analyze` route: `clientError` is the 400 branch,
`serverError` the 500 branch, `ok` the 200 branch with the record list. -/
inductive AnalyzeResponse where
  | clientError (msg : String)
  | serverError (msg : String)
  | ok (records : List EnrichedProp)
deriving Repr, DecidableEq

/-- The record list of a 200 response, `none` on the error branches. -/
def AnalyzeResponse.records? : AnalyzeResponse → Option (List EnrichedProp)
  | .ok rs => some rs
  | .clientError _ => none
  | .serverError _ => none

/-- Truthiness of the `explain` query parameter:
`explain_str.lower() in ("true", "1", "yes", "y")`. -/
def parseExplain (explain_str : String) : Bool :=
  let l := explain_str.toLower
  l == "true" || l == "1" || l == "yes" || l == "y"

/-- The `/analyze` handler from `app.py`.  `float(min_ev_str)` and
`load_props` belong to excluded collaborators, so their outcomes enter as
parameters: `min_ev_parsed = none` models the `ValueError` of a
non-numeric `min_ev`, `load_result = Except.error e` a raising
`load_props`.  `explainFn` is `get_llm_explanation` closed over the
configuration and the per-call backend outcome. -/
def analyze (min_ev_parsed : Option ℚ) (load_result : Except String (List PropRecord))
    (explain_str : String) (explainFn : EnrichedProp → String) : AnalyzeResponse :=
  match min_ev_parsed with
  | none => .clientError "min_ev must be a number"
  | some min_ev =>
    let explain := parseExplain explain_str
    match load_result with
    | .error e => .serverError ("Failed to load props CSV: " ++ e)
    | .ok df =>
      let enriched := enrich_props df
      let filtered := filterByEV enriched min_ev
      let records :=
        if explain && !filtered.isEmpty then explainTopK explainFn filtered else filtered
      .ok records

/-- Shared: the explain loop touches no record count — the output list has
one entry per filtered record. -/
theorem explainTopK_length (f : EnrichedProp → String) (l : List EnrichedProp) :
    (explainTopK f l).length = l.length := by
  simp [explainTopK, List.enum_length]

/-- C1: `enrich_props` is order-preserving and one-to-one: the output has
one record per input row at the same position, source fields copied, and
`implied_prob = american_to_prob american_odds`,
`true_prob = 0.98 * implied_prob`,
`ev_per_dollar = compute_ev_per_dollar true_prob american_odds`. -/
theorem enrich_props_spec (batch : List PropRecord) :
    (enrich_props batch).length = batch.length ∧
    ∀ i : Nat, ∀ r : PropRecord, ∀ e : EnrichedProp,
      batch[i]? = some r → (enrich_props batch)[i]? = some e →
      e.player = r.player ∧ e.stat_line = r.stat_line ∧
      e.american_odds = r.american_odds ∧
      e.implied_prob = american_to_prob r.american_odds ∧
      e.true_prob = (98 / 100) * e.implied_prob ∧
      e.ev_per_dollar = compute_ev_per_dollar e.true_prob e.american_odds := by
  refine ⟨List.length_map _ _, ?_⟩
  intro i r e hr he
  rw [enrich_props, List.getElem?_map, hr] at he
  cases Option.some.inj he
  exact ⟨rfl, rfl, rfl, rfl, mul_comm _ _, rfl⟩

/-- Witness for C1 on the one-row batch `[samplePr]` at position `0`. -/
theorem enrich_props_spec_witness :
    (enrich_props [samplePr]).length = 1 ∧
    (enrichRow samplePr).player = samplePr.player ∧
    (enrichRow samplePr).implied_prob = american_to_prob samplePr.american_odds ∧
    (enrichRow samplePr).true_prob = (98 / 100) * (enrichRow samplePr).implied_prob ∧
    (enrichRow samplePr).ev_per_dollar =
      compute_ev_per_dollar (enrichRow samplePr).true_prob (enrichRow samplePr).american_odds := by
  have h := enrich_props_spec [samplePr]
  have h2 := h.2 0 samplePr (enrichRow samplePr) rfl rfl
  exact ⟨h.1, h2.1, h2.2.2.2.1, h2.2.2.2.2.1, h2.2.2.2.2.2⟩

/-- C5: the `/analyze` EV filter keeps exactly the enriched records with
`ev_per_dollar ≥ min_ev` — survivors satisfy the threshold, every record
meeting the threshold survives — and the survivors form a sublist of the
input, i.e. they appear in their original relative order. -/
theorem filterByEV_spec (l : List EnrichedProp) (m : ℚ) :
    List.Sublist (filterByEV l m) l ∧
    (∀ e ∈ filterByEV l m, m ≤ e.ev_per_dollar) ∧
    (∀ e ∈ l, m ≤ e.ev_per_dollar → e ∈ filterByEV l m) := by
  refine ⟨List.filter_sublist l, ?_, ?_⟩
  · intro e he
    simpa using (List.mem_filter.mp he).2
  · intro e he hm
    exact List.mem_filter.mpr ⟨he, by simpa using hm⟩

/-- Witness for C5 on the singleton list `[enrichRow samplePr]` with
threshold `-1`. -/
theorem filterByEV_spec_witness :
    List.Sublist (filterByEV [enrichRow samplePr] (-1)) [enrichRow samplePr] ∧
    enrichRow samplePr ∈ filterByEV [enrichRow samplePr] (-1) := by
  have h := filterByEV_spec [enrichRow samplePr] (-1)
  exact ⟨h.1, h.2.2 (enrichRow samplePr) (by simp)
    (by norm_num [enrichRow, samplePr, american_to_prob, compute_ev_per_dollar])⟩

/-- C7: explanation-backend failure is always recovered locally: with no
configured URL the gateway returns the fixed not-configured message without
consulting the backend, a raising call returns the fixed error message, and
for every explanation function (the degraded fallbacks included) the
`/analyze` route still answers 200 with the complete filtered result set. -/
theorem llm_fallback_spec (b : BackendResponse) (url : String) (m : ℚ)
    (df : List PropRecord) (explain_str : String) (explainFn : EnrichedProp → String) :
    get_llm_explanation none b = notConfiguredMsg ∧
    get_llm_explanation (some url) BackendResponse.failed = errorMsg ∧
    (analyze (some m) (Except.ok df) explain_str explainFn).records?.map List.length =
      some (filterByEV (enrich_props df) m).length := by
  refine ⟨rfl, rfl, ?_⟩
  show (AnalyzeResponse.ok _).records?.map List.length = _
  by_cases hc :
      (parseExplain explain_str && !(filterByEV (enrich_props df) m).isEmpty) = true
  · simp [AnalyzeResponse.records?, hc, explainTopK_length]
  · simp [AnalyzeResponse.records?, hc]

/-- Shared: the original positions carried by the sorted copy are pairwise
distinct — each filtered record dict occurs once, so the explain loop
writes to each at most once. -/
theorem sorted_enum_fst_nodup (l : List EnrichedProp) :
    ((List.insertionSort evDesc l.enum).map Prod.fst).Nodup := by
  have hperm : List.Perm ((List.insertionSort evDesc l.enum).map Prod.fst)
      (l.enum.map Prod.fst) := (List.perm_insertionSort evDesc l.enum).map Prod.fst
  exact hperm.symm.nodup (by rw [List.enum_map_fst]; exact List.nodup_range _)

/-- Shared: the top-k index list repeats no position. -/
theorem topKIndices_nodup (l : List EnrichedProp) : (topKIndices l).Nodup := by
  have hsub : List.Sublist
      (((List.insertionSort evDesc l.enum).take
        (min 3 (List.insertionSort evDesc l.enum).length)).map Prod.fst)
      ((List.insertionSort evDesc l.enum).map Prod.fst) :=
    (List.take_sublist _ _).map Prod.fst
  exact hsub.nodup (sorted_enum_fst_nodup l)

/-- Shared: a top-k index is the original position of some entry of the
top-k slice of the sorted copy. -/
theorem topKIndices_mem (l : List EnrichedProp) {i : Nat} (hi : i ∈ topKIndices l) :
    ∃ p ∈ (List.insertionSort evDesc l.enum).take
      (min 3 (List.insertionSort evDesc l.enum).length), p.1 = i := by
  have hi' : i ∈ ((List.insertionSort evDesc l.enum).take
      (min 3 (List.insertionSort evDesc l.enum).length)).map Prod.fst := hi
  rcases List.mem_map.mp hi' with ⟨p, hp, hpi⟩
  exact ⟨p, hp, hpi⟩

/-- Shared: `min 3 n` positions are selected for explanation. -/
theorem topKIndices_length (l : List EnrichedProp) :
    (topKIndices l).length = min 3 l.length := by
  show (((List.insertionSort evDesc l.enum).take
    (min 3 (List.insertionSort evDesc l.enum).length)).map Prod.fst).length = _
  rw [List.length_map, List.length_take, List.length_insertionSort, List.enum_length]
  omega

/-- Shared: every selected position indexes into the filtered list. -/
theorem topKIndices_lt (l : List EnrichedProp) {i : Nat} (hi : i ∈ topKIndices l) :
    i < l.length := by
  rcases topKIndices_mem l hi with ⟨p, hp, hpi⟩
  have hpsorted : p ∈ List.insertionSort evDesc l.enum := (List.take_sublist _ _).subset hp
  have hpenum : p ∈ l.enum := (List.perm_insertionSort evDesc l.enum).mem_iff.mp hpsorted
  have hget := List.mem_enum_iff_getElem?.mp hpenum
  rcases List.getElem?_eq_some.mp hget with ⟨hlt, -⟩
  omega

/-- Shared: a record whose position is selected sits in the top-k slice of
the sorted copy (positions are distinct, so the slice entry with that
position is the record itself). -/
theorem mem_take_of_topK {l : List EnrichedProp} {i : Nat} {r : EnrichedProp}
    (hir : (i, r) ∈ l.enum) (hi : i ∈ topKIndices l) :
    (i, r) ∈ (List.insertionSort evDesc l.enum).take
      (min 3 (List.insertionSort evDesc l.enum).length) := by
  rcases topKIndices_mem l hi with ⟨p, hp, hpi⟩
  have hpsorted : p ∈ List.insertionSort evDesc l.enum := (List.take_sublist _ _).subset hp
  have hirsorted : (i, r) ∈ List.insertionSort evDesc l.enum :=
    (List.perm_insertionSort evDesc l.enum).mem_iff.mpr hir
  have hpe : p = (i, r) :=
    List.inj_on_of_nodup_map (sorted_enum_fst_nodup l) hpsorted hirsorted (by simp [hpi])
  rwa [hpe] at hp

/-- Shared: a record whose position is not selected sits in the tail of the
sorted copy beyond the top-k slice. -/
theorem mem_drop_of_not_topK {l : List EnrichedProp} {j : Nat} {s : EnrichedProp}
    (hjs : (j, s) ∈ l.enum) (hj : j ∉ topKIndices l) :
    (j, s) ∈ (List.insertionSort evDesc l.enum).drop
      (min 3 (List.insertionSort evDesc l.enum).length) := by
  have hsorted : (j, s) ∈ List.insertionSort evDesc l.enum :=
    (List.perm_insertionSort evDesc l.enum).mem_iff.mpr hjs
  rw [← List.take_append_drop (min 3 (List.insertionSort evDesc l.enum).length)
    (List.insertionSort evDesc l.enum)] at hsorted
  rcases List.mem_append.mp hsorted with h | h
  · have : j ∈ topKIndices l := List.mem_map.mpr ⟨(j, s), h, rfl⟩
    exact absurd this hj
  · exact h

/-- Shared: a record at a selected position has EV at least that of any
record at an unselected position — the sorted copy is EV-descending and
the selected entries are its prefix. -/
theorem ev_le_of_topK {l : List EnrichedProp} {i j : Nat} {r s : EnrichedProp}
    (hir : (i, r) ∈ l.enum) (hjs : (j, s) ∈ l.enum)
    (hi : i ∈ topKIndices l) (hj : j ∉ topKIndices l) :
    s.ev_per_dollar ≤ r.ev_per_dollar := by
  have hpair : (List.insertionSort evDesc l.enum).Pairwise evDesc :=
    List.sorted_insertionSort evDesc l.enum
  rw [← List.take_append_drop (min 3 (List.insertionSort evDesc l.enum).length)
    (List.insertionSort evDesc l.enum)] at hpair
  exact (List.pairwise_append.mp hpair).2.2 (i, r) (mem_take_of_topK hir hi)
    (j, s) (mem_drop_of_not_topK hjs hj)

/-- Shared: position-wise description of the explain step's output. -/
theorem explainTopK_getElem? (f : EnrichedProp → String) (l : List EnrichedProp)
    {i : Nat} {r : EnrichedProp} (hr : l[i]? = some r) :
    (explainTopK f l)[i]? =
      some (if i ∈ topKIndices l then setExplanation f r else r) := by
  rw [explainTopK, List.getElem?_map, List.getElem?_enum, hr, Option.map_some',
    Option.map_some']

/-- Shared: exactly `min 3 n` output records carry an explanation when none
carried one on entry. -/
theorem explainTopK_explained_count (f : EnrichedProp → String) (l : List EnrichedProp)
    (hnone : ∀ e ∈ l, e.llm_explanation = none) :
    ((explainTopK f l).filter (fun e => e.llm_explanation.isSome)).length
      = min 3 l.length := by
  rw [explainTopK, List.filter_map, List.length_map, ← List.countP_eq_length_filter]
  have hcong := List.countP_congr (l := l.enum)
    (p := ((fun e => e.llm_explanation.isSome) ∘
      (fun p : Nat × EnrichedProp =>
        if p.1 ∈ topKIndices l then setExplanation f p.2 else p.2)))
    (q := fun p : Nat × EnrichedProp => decide (p.1 ∈ topKIndices l))
    (by
      intro p hp
      have hmem : p.2 ∈ l := by
        have := List.mem_enum_iff_getElem?.mp hp
        exact List.getElem?_mem this
      by_cases hin : p.1 ∈ topKIndices l
      · simp [hin, setExplanation]
      · simp [hin, hnone p.2 hmem])
  rw [hcong]
  have hmap : List.countP (fun i => decide (i ∈ topKIndices l)) (l.enum.map Prod.fst)
      = List.countP (fun p : Nat × EnrichedProp => decide (p.1 ∈ topKIndices l)) l.enum := by
    rw [List.countP_map]
    rfl
  rw [← hmap, List.enum_map_fst, List.countP_eq_length_filter]
  have hperm : List.Perm ((List.range l.length).filter (fun i => decide (i ∈ topKIndices l)))
      (topKIndices l) := by
    refine (List.perm_ext_iff_of_nodup (List.Nodup.filter _ (List.nodup_range _))
      (topKIndices_nodup l)).mpr (fun a => ?_)
    simp only [List.mem_filter, List.mem_range, decide_eq_true_eq]
    exact ⟨fun h => h.2, fun h => ⟨topKIndices_lt l h, h⟩⟩
  rw [hperm.length_eq, topKIndices_length]

/-- C6: when explanations are absent on entry and the filtered set is
non-empty, the explain step marks exactly `min 3 n ≥ 1` records; each
output position holds the input record of that position, with the
explanation attached precisely when the position is among the top-k of the
EV-descending sorted copy — the write through the sorted view is visible at
the corresponding position of the main result because both views address
the same underlying records — all other returned records carry no
explanation, and every explained record's EV is at least every unexplained
record's EV. -/
theorem explainTopK_spec (f : EnrichedProp → String) (l : List EnrichedProp)
    (hnone : ∀ e ∈ l, e.llm_explanation = none) (hne : l ≠ []) :
    ((explainTopK f l).filter (fun e => e.llm_explanation.isSome)).length
      = min 3 l.length ∧
    1 ≤ min 3 l.length ∧
    (∀ i : Nat, ∀ r e : EnrichedProp, l[i]? = some r → (explainTopK f l)[i]? = some e →
      (i ∈ topKIndices l → e = setExplanation f r) ∧
      (i ∉ topKIndices l → e = r ∧ e.llm_explanation = none)) ∧
    (∀ i j : Nat, ∀ ei ej : EnrichedProp,
      (explainTopK f l)[i]? = some ei → (explainTopK f l)[j]? = some ej →
      ei.llm_explanation.isSome → ej.llm_explanation = none →
      ej.ev_per_dollar ≤ ei.ev_per_dollar) := by
  have hlenpos : 0 < l.length := List.length_pos.mpr hne
  refine ⟨explainTopK_explained_count f l hnone, by omega, ?_, ?_⟩
  · intro i r e hr he
    rw [explainTopK_getElem? f l hr] at he
    cases Option.some.inj he
    constructor
    · intro hin
      rw [if_pos hin]
    · intro hout
      rw [if_neg hout]
      exact ⟨rfl, hnone r (List.getElem?_mem hr)⟩
  · intro i j ei ej hei hej hsome hnone'
    have hilt : i < l.length := by
      rcases List.getElem?_eq_some.mp hei with ⟨hlt, -⟩
      rwa [explainTopK_length] at hlt
    have hjlt : j < l.length := by
      rcases List.getElem?_eq_some.mp hej with ⟨hlt, -⟩
      rwa [explainTopK_length] at hlt
    have hri : l[i]? = some l[i] := List.getElem?_eq_getElem hilt
    have hrj : l[j]? = some l[j] := List.getElem?_eq_getElem hjlt
    rw [explainTopK_getElem? f l hri] at hei
    rw [explainTopK_getElem? f l hrj] at hej
    cases Option.some.inj hei
    cases Option.some.inj hej
    by_cases hin : i ∈ topKIndices l
    · by_cases hjn : j ∈ topKIndices l
      · rw [if_pos hjn] at hnone'
        simp [setExplanation] at hnone'
      · rw [if_pos hin, if_neg hjn]
        rw [if_neg hjn] at hnone'
        have := ev_le_of_topK (List.mem_enum_iff_getElem?.mpr hri)
          (List.mem_enum_iff_getElem?.mpr hrj) hin hjn
        simpa [setExplanation] using this
    · rw [if_neg hin] at hsome
      rw [hnone l[i] (List.getElem?_mem hri)] at hsome
      simp at hsome

/-- A concrete enriched record with a given EV, used to instantiate the
explain-step theorem. -/
def sampleEnriched (ev : ℚ) : EnrichedProp :=
  { player := "A"
    stat_line := "Over 1.5"
    american_odds := 100
    implied_prob := 1
    true_prob := 1
    ev_per_dollar := ev
    llm_explanation := none }

/-- Witness for C6 on a concrete two-record filtered set. -/
theorem explainTopK_spec_witness :
    ((explainTopK (fun _ => "w") [sampleEnriched 1, sampleEnriched 2]).filter
      (fun e => e.llm_explanation.isSome)).length
      = min 3 ([sampleEnriched 1, sampleEnriched 2] : List EnrichedProp).length ∧
    1 ≤ min 3 ([sampleEnriched 1, sampleEnriched 2] : List EnrichedProp).length := by
  have h := explainTopK_spec (fun _ => "w") [sampleEnriched 1, sampleEnriched 2]
    (by simp [sampleEnriched]) (by simp)
  exact ⟨h.1, h.2.1⟩

/-- C8: an unparseable `min_ev` yields the 400 response carrying
"min_ev must be a number", decided before the CSV is loaded or any record
processed: the response is identical across every load outcome and
explanation function. -/
theorem analyze_bad_min_ev (load1 load2 : Except String (List PropRecord))
    (es1 es2 : String) (f g : EnrichedProp → String) :
    analyze none load1 es1 f = AnalyzeResponse.clientError "min_ev must be a number" ∧
    analyze none load1 es1 f = analyze none load2 es2 g :=
  ⟨rfl, rfl⟩

end NbaProps
